import Mathlib

/-!
Verification development for the record-label-manager finance pipeline.

This file gives a shallow embedding, in Lean 4, of the parts of the
repository that the verified properties speak about:

* `finance/pipeline/io/converters.py` — delimiter/decimal canonicalization;
* `finance/pipeline/cli/ingest.py` — reporting-period inference from file
  names and the distribution-file grouping that feeds canonicalization;
* `backend/finances/management/commands/finances_normalize.py` — the revenue
  normalizer with its row-hash deduplication;
* `backend/finances/services/exchange_rate_service.py` — BRL conversion with
  static fallback rates;
* `backend/finances/management/commands/finances_payout.py` — the quarterly
  payout calculator with preview mode and duplicate-run rejection.

Python `Decimal` values are modelled as rationals (`ℚ`); the arithmetic the
pipeline performs on them (addition, multiplication by a rate, comparison
with zero) is exact in `Decimal` for the magnitudes involved, so `ℚ` is a
faithful model.  `Decimal` also accepts the literals `NaN` and `Infinity`;
those are outside this model (statement amount columns never carry them and
no claim mentions them).  SHA-256 is modelled as an uninterpreted
deterministic function passed as a parameter: every verified property
depends only on the digest being a function of its input string.
-/

namespace RLM

/-! ## Python string primitives -/

/-- Whitespace as stripped by Python `str.strip()` (ASCII whitespace plus
the no-break space, the only non-ASCII whitespace that occurs in the data). -/
def isPyStripSpace (c : Char) : Bool :=
  c.toNat = 32 || c.toNat = 9 || c.toNat = 10 || c.toNat = 13 ||
  c.toNat = 11 || c.toNat = 12 || c.toNat = 160

/-- Strip characters satisfying `p` from both ends of a character list. -/
def stripList (p : Char → Bool) (l : List Char) : List Char :=
  ((l.dropWhile p).reverse.dropWhile p).reverse

/-- Python `str.strip()`. -/
def pyStrip (s : String) : String :=
  String.mk (stripList isPyStripSpace s.data)

/-- Replacement of every non-overlapping occurrence of `pat` (non-empty) in a
character list, left to right, as Python `str.replace` does.  The fuel
argument is called with the length of the list, which always suffices
because every step consumes at least one character. -/
def replaceAux (pat rep : List Char) : Nat → List Char → List Char
  | _, [] => []
  | 0, l => l
  | fuel + 1, c :: t =>
    if pat.isPrefixOf (c :: t) then
      rep ++ replaceAux pat rep fuel (t.drop (pat.length - 1))
    else
      c :: replaceAux pat rep fuel t

/-- Python `str.replace(pat, rep)` for a non-empty pattern. -/
def pyReplace (s pat rep : String) : String :=
  String.mk (replaceAux pat.data rep.data s.data.length s.data)

/-- Numeric value of a list of decimal digit characters. -/
def digitsToNat (ds : List Char) : Nat :=
  ds.foldl (fun acc c => acc * 10 + (c.toNat - 48)) 0

/-- Parse an optional sign, returning the sign as a rational. -/
def parseSign : List Char → ℚ × List Char
  | '+' :: r => (1, r)
  | '-' :: r => (-1, r)
  | r => (1, r)

/-- Parse the optional exponent part of a Python `Decimal` literal: either
nothing remains, or `e`/`E`, an optional sign and at least one digit must
consume the entire rest. -/
def parseExp : List Char → Option Int
  | [] => some 0
  | c :: r =>
    if c = 'e' || c = 'E' then
      let (sg, r1) : Int × List Char :=
        match r with
        | '+' :: r2 => (1, r2)
        | '-' :: r2 => (-1, r2)
        | r2 => (1, r2)
      let (ds, r2) := r1.span Char.isDigit
      if ds.isEmpty then none
      else if r2.isEmpty then some (sg * (digitsToNat ds : Int))
      else none
    else none

/-- Python `Decimal(str)` on a finite numeric string: optional surrounding
whitespace, optional sign, a coefficient holding at least one digit
(`123`, `123.45`, `123.`, `.45`), and an optional exponent.  Returns `none`
where `Decimal` raises `InvalidOperation`. -/
def pyDecimal (s : String) : Option ℚ :=
  let (sg, l1) := parseSign (stripList isPyStripSpace s.data)
  let (ip, l2) := l1.span Char.isDigit
  let (fp, l3) :=
    match l2 with
    | '.' :: r => r.span Char.isDigit
    | r => ([], r)
  if ip.isEmpty && (match l2 with | '.' :: _ => fp.isEmpty | _ => true) then none
  else if (match l2 with | '.' :: _ => false | _ => true) && !l2.isEmpty &&
          (match l2 with | c :: _ => !(c = 'e' || c = 'E') | [] => true) then none
  else
    match parseExp l3 with
    | none => none
    | some e =>
      let coeff : ℚ := (digitsToNat ip : ℚ) + (digitsToNat fp : ℚ) / ((10 : ℚ) ^ fp.length)
      some (sg * coeff * (10 : ℚ) ^ e)

/-- Python `int(str)`: optional surrounding whitespace, optional sign, one or
more digits and nothing else. -/
def pyInt (s : String) : Option Int :=
  let (sg, l1) : Int × List Char :=
    match stripList isPyStripSpace s.data with
    | '+' :: r => (1, r)
    | '-' :: r => (-1, r)
    | r => (1, r)
  let (ds, rest) := l1.span Char.isDigit
  if ds.isEmpty || !rest.isEmpty then none else some (sg * (digitsToNat ds : Int))

/-- Truncation toward zero, as Python `int(float(x))` truncates. -/
def pyTrunc (q : ℚ) : Int :=
  if q < 0 then -(((-q.num).toNat / q.den : Nat) : Int)
  else ((q.num.toNat / q.den : Nat) : Int)

/-- Python `s or dflt` on strings: the default replaces the empty string. -/
def pyOr (s dflt : String) : String :=
  if s = "" then dflt else s

/-! ## finance/pipeline/io/converters.py -/

/-- Embedding of `_looks_like_number`: non-empty, and after stripping, at
least one digit and nothing but digits, commas, dots and hyphens.  Python
`ch.isdigit()` is the ASCII digit test on this data. -/
def _looks_like_number (text : String) : Bool :=
  if text.isEmpty then false
  else
    let t := (pyStrip text).data
    t.any Char.isDigit && t.all (fun ch => ch.isDigit || ch = ',' || ch = '.' || ch = '-')

/-- Embedding of the per-cell rewrite inside `normalize_delimiter_and_decimal`
when `decimal_comma_to_dot` is set: a plausibly numeric cell has no-break
spaces turned into spaces and commas turned into dots; every other cell is
passed through unchanged. -/
def normalize_cell (cell : String) : String :=
  if _looks_like_number cell then pyReplace (pyReplace cell "\u00A0" " ") "," "."
  else cell

/-- Embedding of `normalize_delimiter_and_decimal` at the level of decoded
rows: the function re-writes every row, applying `normalize_cell` per cell
exactly when `decimal_comma_to_dot` is set. (Delimiter change and encoding
detection concern the byte-level framing, not the cell contents.) -/
def normalize_delimiter_and_decimal (decimal_comma_to_dot : Bool)
    (rows : List (List String)) : List (List String) :=
  rows.map (fun row =>
    if decimal_comma_to_dot then row.map normalize_cell else row)

/-! ## finance/pipeline/cli/ingest.py — period inference

The two regular expressions of `_infer_period_from_name`,
`(20\d\x7b2\x7d)[-_\s]?Q\s*([1-4])` and `Q\s*([1-4])[-_\s]?(20\d\x7b2\x7d)`,
both with `re.IGNORECASE`, are embedded as explicit scanners with Python
`re.search` semantics (leftmost match; the first pattern is tried over the
whole name before the second).  Python `\s` is modelled by its ASCII subset,
which covers every separator the repository's file names use. -/

/-- ASCII subset of Python regex `\s`. -/
def isReWhitespace (c : Char) : Bool :=
  c.toNat = 32 || c.toNat = 9 || c.toNat = 10 || c.toNat = 13 ||
  c.toNat = 11 || c.toNat = 12

/-- Character class `[-_\s]` of the optional separator. -/
def isSepChar (c : Char) : Bool :=
  c = '-' || c = '_' || isReWhitespace c

/-- Letter `Q` under `re.IGNORECASE`. -/
def isQChar (c : Char) : Bool :=
  c = 'Q' || c = 'q'

/-- Character class `[1-4]`. -/
def isQuarterDigit (c : Char) : Bool :=
  49 ≤ c.toNat && c.toNat ≤ 52

/-- Greedy `\s*`. -/
def skipReWs : List Char → List Char
  | [] => []
  | c :: r => if isReWhitespace c then skipReWs r else c :: r

/-- Match `Q\s*([1-4])` at the head of the list, returning the quarter digit. -/
def matchQsuffix (l : List Char) : Option Char :=
  match l with
  | [] => none
  | c :: rest =>
    if isQChar c then
      match skipReWs rest with
      | [] => none
      | d :: _ => if isQuarterDigit d then some d else none
    else none

/-- Match `(20\d\x7b2\x7d)` at the head of the list, returning the year text. -/
def matchYearAt (l : List Char) : Option String :=
  match l with
  | '2' :: '0' :: a :: b :: _ =>
    if a.isDigit && b.isDigit then some (String.mk ['2', '0', a, b]) else none
  | _ => none

/-- Match the first pattern `(20\d\x7b2\x7d)[-_\s]?Q\s*([1-4])` at the head of the
list.  The optional separator is greedy; its character class is disjoint
from `Q`, so trying it first and backtracking to the empty alternative is
exactly the regex behaviour. -/
def matchP1At (l : List Char) : Option (String × Char) :=
  match l with
  | '2' :: '0' :: a :: b :: rest =>
    if a.isDigit && b.isDigit then
      let withSep : Option Char :=
        match rest with
        | [] => none
        | c :: rest2 => if isSepChar c then matchQsuffix rest2 else none
      match withSep with
      | some d => some (String.mk ['2', '0', a, b], d)
      | none => (matchQsuffix rest).map (fun d => (String.mk ['2', '0', a, b], d))
    else none
  | _ => none

/-- Leftmost search for the first pattern. -/
def searchP1 : List Char → Option (String × Char)
  | [] => none
  | c :: rest =>
    match matchP1At (c :: rest) with
    | some r => some r
    | none => searchP1 rest

/-- Match the second pattern `Q\s*([1-4])[-_\s]?(20\d\x7b2\x7d)` at the head of
the list. -/
def matchP2At (l : List Char) : Option (String × Char) :=
  match l with
  | [] => none
  | c :: rest =>
    if isQChar c then
      match skipReWs rest with
      | [] => none
      | d :: rest2 =>
        if isQuarterDigit d then
          let withSep : Option String :=
            match rest2 with
            | [] => none
            | s :: rest3 => if isSepChar s then matchYearAt rest3 else none
          match withSep with
          | some y => some (y, d)
          | none => (matchYearAt rest2).map (fun y => (y, d))
        else none
    else none

/-- Leftmost search for the second pattern. -/
def searchP2 : List Char → Option (String × Char)
  | [] => none
  | c :: rest =>
    match matchP2At (c :: rest) with
    | some r => some r
    | none => searchP2 rest

/-- Embedding of `_infer_period_from_name`: the first pattern is searched in
the whole name; only when it fails anywhere is the second pattern tried.
The result pairs the year text with `Q` plus the quarter digit. -/
def _infer_period_from_name (name : String) : Option (String × String) :=
  match searchP1 name.data with
  | some (y, d) => some (y, "Q" ++ String.singleton d)
  | none =>
    match searchP2 name.data with
    | some (y, d) => some (y, "Q" ++ String.singleton d)
    | none => none

/-! ## finance/pipeline/cli/ingest.py — distribution ingestion

The `.csv` collection loop of `ingest_distribution` is embedded over an
abstract listing of the source tree: each file carries its full posix path,
its base name and its byte size (`path.stat().st_size`).  Reading file
bytes, the xlsx conversion pass and `compute_sha256`/`mtime` are filesystem
effects outside the model; the grouping, the skip rules, the best-candidate
scoring and the metadata construction are embedded faithfully. -/

/-- Listing entry for one file under the distribution source root. -/
structure SrcFile where
  path : String
  name : String
  size : Nat
deriving DecidableEq, Repr

/-- ASCII lowercasing, as Python `str.lower()` acts on these ASCII paths. -/
def asciiLower (s : String) : String :=
  String.mk (s.data.map (fun c =>
    if 65 ≤ c.toNat && c.toNat ≤ 90 then Char.ofNat (c.toNat + 32) else c))

/-- Python `str.endswith(suffix)`. -/
def strEndsWith (s suffix : String) : Bool :=
  suffix.data.reverse.isPrefixOf s.data.reverse

/-- Split a character list on a separator character. -/
def splitOnChar (sep : Char) (l : List Char) : List (List Char) :=
  l.foldr (fun c acc =>
    match acc with
    | [] => [[]]
    | cur :: done => if c = sep then [] :: cur :: done else (c :: cur) :: done) [[]]

/-- Test of Python `"canonical" in path.parts` over a posix path. -/
def path_parts_contain (path part : String) : Bool :=
  (splitOnChar '/' path.data).contains part.data

/-- Substring test on character lists (Python `sub in s`). -/
def listHasSub (l sub : List Char) : Bool :=
  match l with
  | [] => sub.isEmpty
  | _ :: t => sub.isPrefixOf l || listHasSub t sub

/-- Python `sub in s` on strings. -/
def strContains (s sub : String) : Bool :=
  listHasSub s.data sub.data

/-- Statement-type detection of `ingest_distribution`: converted files,
`_rs_` names or `royalty` paths are royalty statements; `_tk_`, `encoding`
or `tk cost` mark encoding-cost statements; anything else is skipped. -/
def stype_of (f : SrcFile) : Option String :=
  let name_lower := asciiLower f.name
  let path_lower := asciiLower f.path
  let is_converted := strEndsWith f.name "__converted.csv"
  if is_converted || strContains name_lower "_rs_" || strContains path_lower "royalty" then
    some "royalty"
  else if strContains name_lower "_tk_" || strContains path_lower "encoding" ||
          strContains path_lower "tk cost" then
    some "encoding"
  else none

/-- Grouping key of a candidate file: files inside a `canonical` directory
are skipped, then the statement type, then the period inferred from the
full path; failure of any step skips the file. -/
def group_key (f : SrcFile) : Option (String × String × String) :=
  if path_parts_contain f.path "canonical" then none
  else
    match stype_of f with
    | none => none
    | some st =>
      match _infer_period_from_name f.path with
      | none => none
      | some (y, q) => some (y, q, st)

/-- Append a file to its group, preserving first-insertion order as Python
`dict.setdefault` does. -/
def add_to_groups (gs : List ((String × String × String) × List SrcFile))
    (k : String × String × String) (f : SrcFile) :
    List ((String × String × String) × List SrcFile) :=
  match gs with
  | [] => [(k, [f])]
  | (k0, fs) :: rest =>
    if k0 = k then (k0, fs ++ [f]) :: rest
    else (k0, fs) :: add_to_groups rest k f

/-- Collect candidates per (year, quarter, statement type). -/
def build_groups (files : List SrcFile) :
    List ((String × String × String) × List SrcFile) :=
  files.foldl (fun gs f =>
    match group_key f with
    | none => gs
    | some k => add_to_groups gs k f) []

/-- Marker for corrected statements in the scoring and metadata steps. -/
def looks_corrected (f : SrcFile) : Bool :=
  let nl := asciiLower f.name
  strContains nl "correction" || strContains nl "corrigido"

/-- Scoring tuple of `ingest_distribution.score`: prefer large corrected
statements, then size, then converted files. -/
def score (f : SrcFile) : Nat × Nat × Nat :=
  let s1 := if looks_corrected f && decide (f.size > 10000) then 1 else 0
  let s3 := if strEndsWith f.name "__converted.csv" then 1 else 0
  (s1, f.size, s3)

/-- Strict lexicographic comparison of scoring tuples. -/
def score_lt (a b : Nat × Nat × Nat) : Bool :=
  a.1 < b.1 || (a.1 = b.1 && (a.2.1 < b.2.1 || (a.2.1 = b.2.1 && a.2.2 < b.2.2)))

/-- First maximal element under the score, as selected by the stable
descending sort `sorted(paths, key=score, reverse=True)[0]`. -/
def choose_best (p : SrcFile) (rest : List SrcFile) : SrcFile :=
  rest.foldl (fun best q => if score_lt (score best) (score q) then q else best) p

/-- Sidecar metadata of `SourceFileMeta` (the hash and mtime fields read the
filesystem and are outside the model). -/
structure SourceFileMeta where
  path : String
  bytes : Nat
  source : String
  statement_type : String
  period : String
  correction_of : Option String
deriving DecidableEq, Repr

/-- Embedding of the `.csv` half of `ingest_distribution`: group the
candidates, choose the best candidate per group, canonicalize it and write
its metadata.  The returned list holds one metadata record per produced
canonical file, whose `path` is the chosen source file. -/
def ingest_distribution (files : List SrcFile) : List SourceFileMeta :=
  (build_groups files).filterMap (fun kg =>
    match kg.2 with
    | [] => none
    | p :: rest =>
      let chosen := choose_best p rest
      some { path := chosen.path,
             bytes := chosen.size,
             source := "distribution",
             statement_type := kg.1.2.2,
             period := kg.1.1 ++ "-" ++ kg.1.2.1,
             correction_of := if looks_corrected chosen then some "supersedes" else none })

/-- Decidable check over every year 2000–2099 and quarter 1–4 that the
year-then-quarter and quarter-then-year spellings are both accepted and
produce the same period. -/
def all_periods_ok : Bool :=
  (List.range 100).all fun y =>
    [1, 2, 3, 4].all fun q =>
      let d1 := Char.ofNat (48 + y / 10)
      let d2 := Char.ofNat (48 + y % 10)
      let qc := Char.ofNat (48 + q)
      let yearStr := String.mk ['2', '0', d1, d2]
      let expected := some (yearStr, "Q" ++ String.singleton qc)
      _infer_period_from_name (String.mk ['2', '0', d1, d2, '-', 'Q', qc]) = expected &&
      _infer_period_from_name (String.mk ['2', '0', d1, d2, '_', 'Q', qc]) = expected &&
      _infer_period_from_name (String.mk ['2', '0', d1, d2, 'Q', qc]) = expected &&
      _infer_period_from_name (String.mk ['Q', qc, ' ', '2', '0', d1, d2]) = expected &&
      _infer_period_from_name (String.mk ['Q', qc, '-', '2', '0', d1, d2]) = expected

/-! ## backend/finances/management/commands/finances_normalize.py -/

/-- Calendar date, as carried by Python `datetime.date`. -/
structure PyDate where
  year : Nat
  month : Nat
  day : Nat
deriving DecidableEq, Repr

/-- Day count of a month, with Gregorian leap years, as `datetime` validates. -/
def daysInMonth (year month : Nat) : Nat :=
  if month = 2 then
    if year % 4 = 0 && (year % 100 ≠ 0 || year % 400 = 0) then 29 else 28
  else if month = 4 || month = 6 || month = 9 || month = 11 then 30
  else 31

/-- Validity test that `datetime(year, month, day)` performs. -/
def isValidDate (y m d : Nat) : Bool :=
  1 ≤ y && y ≤ 9999 && 1 ≤ m && m ≤ 12 && 1 ≤ d && d ≤ daysInMonth y m

/-- Registered `SourceFile` row, as the normalizer reads it. -/
structure SourceFileRec where
  id : Nat
  datasource : String
  label : String
  period_start : Option PyDate
deriving DecidableEq, Repr

/-- CSV row as produced by `csv.DictReader`: header-to-cell pairs in column
order. -/
abbrev Row : Type := List (String × String)

/-- Python `row.get(key, dflt)`. -/
def rowGetD (row : Row) (key dflt : String) : String :=
  match List.lookup key row with
  | some v => v
  | none => dflt

/-- Python membership-and-truthiness test `key in row and row[key]`. -/
def rowHasValue (row : Row) (key : String) : Bool :=
  match List.lookup key row with
  | some v => v ≠ ""
  | none => false

/-- Single-quote character, used by Python `repr` of strings. -/
def pyQuote : String := String.singleton (Char.ofNat 39)

/-- Python `repr` of one dict entry (these header and cell strings contain
no characters that `repr` would escape). -/
def pyReprEntry (kv : String × String) : String :=
  pyQuote ++ kv.1 ++ pyQuote ++ ": " ++ pyQuote ++ kv.2 ++ pyQuote

/-- Python `f"..."` formatting of a `DictReader` row: the dict repr, listing
entries in column order. -/
def pyReprRow (row : Row) : String :=
  String.singleton (Char.ofNat 123) ++
    String.intercalate ", " (row.map pyReprEntry) ++
    String.singleton (Char.ofNat 125)

/-- Embedding of `compute_row_hash`: the digest of
`f"\x7bsource_file.id\x7d:\x7brow\x7d"`.  `sha` stands for the (truncated)
hex SHA-256 digest, an uninterpreted deterministic function. -/
def compute_row_hash (sha : String → String) (sf : SourceFileRec) (row : Row) : String :=
  sha (toString sf.id ++ ":" ++ pyReprRow row)

/-- Normalized revenue event, as written by `RevenueEvent.objects.create`. -/
structure RevenueEvent where
  source_file_id : Nat
  label : String
  occurred_at : Option PyDate
  platform : String
  currency : String
  product_type : String
  quantity : Int
  gross_amount : ℚ
  net_amount : ℚ
  net_amount_base : ℚ
  base_ccy : String
  row_hash : String
deriving DecidableEq, Repr

/-- Bandcamp date parsing inside `process_bandcamp_row`: empty after strip
returns nothing; otherwise the text before the first space must split on
`/` into month, day and year that `int` parses and `datetime` accepts. -/
def parse_bandcamp_date (date_str : String) : Option PyDate :=
  let ds := pyStrip date_str
  if ds = "" then none
  else
    let date_part := String.mk (ds.data.takeWhile (fun c => c ≠ ' '))
    match date_part.splitOn "/" with
    | [ms, dstr, ys] =>
      match pyInt ms, pyInt dstr, pyInt ys with
      | some m, some d, some y =>
        if 0 ≤ y && 0 ≤ m && 0 ≤ d && isValidDate y.toNat m.toNat d.toNat then
          some ⟨y.toNat, m.toNat, d.toNat⟩
        else none
      | _, _, _ => none
    | _ => none

/-- Candidate gross-amount columns of `process_distribution_row`. -/
def grossCols : List String := ["Revenue-EUR", "Revenue_EUR", "Revenue EUR", "Value", "Gross"]

/-- Candidate net-amount columns of `process_distribution_row`. -/
def netCols : List String := ["Rev.less Publ.EUR", "Rev_less_Publ_EUR", "Royalty", "Net"]

/-- Candidate quantity columns of `process_distribution_row`. -/
def qtyCols : List String := ["Sales", "Qty", "Quantity"]

/-- Embedding of `extract_decimal`.  The first present, non-empty candidate
column is cleaned and handed to `Decimal`; an invalid string there raises
`decimal.InvalidOperation`, which the surrounding
`except (ValueError, TypeError)` clauses do not catch, so the row aborts —
modelled as `none`.  When no candidate is present and non-empty the result
is zero. -/
def extract_decimal (row : Row) : List String → Option ℚ
  | [] => some 0
  | col :: rest =>
    if rowHasValue row col then
      let value_str :=
        pyReplace (pyReplace (pyReplace (pyReplace (rowGetD row col "") " " "") "," ".") "â‚¬" "") "$" ""
      match pyDecimal value_str with
      | some d => some d
      | none => none
    else extract_decimal row rest

/-- Embedding of `extract_integer`: `int(float(v))` failures raise
`ValueError`, which its handler catches, continuing with the next candidate
column; the default is zero.  (Binary-float rounding is immaterial here:
quantity cells are small integers.) -/
def extract_integer (row : Row) : List String → Int
  | [] => 0
  | col :: rest =>
    if rowHasValue row col then
      match pyDecimal (rowGetD row col "") with
      | some q => pyTrunc q
      | none => extract_integer row rest
    else extract_integer row rest

/-- Embedding of `process_bandcamp_row`.  A missing or malformed date
returns no event.  `Decimal` failure on the cleaned amount strings raises
out of the method (its handler only catches `ValueError`/`TypeError`) and
the caller skips the row, also modelled as `none`; a quantity `int` failure
is caught locally and zeroes all three parsed figures. -/
def process_bandcamp_row (sf : SourceFileRec) (row : Row) (row_hash : String) :
    Option RevenueEvent :=
  match parse_bandcamp_date (rowGetD row "date" "") with
  | none => none
  | some d =>
    let netS := pyOr (pyReplace (pyReplace (rowGetD row "amount you received" "0") "$" "") "," "") "0"
    let grossS := pyOr (pyReplace (pyReplace (rowGetD row "item total" "0") "$" "") "," "") "0"
    match pyDecimal netS with
    | none => none
    | some n =>
      match pyDecimal grossS with
      | none => none
      | some g =>
        let parsed : ℚ × ℚ × Int :=
          match pyInt (pyOr (rowGetD row "quantity" "0") "0") with
          | some q => (n, g, q)
          | none => (0, 0, 0)
        some { source_file_id := sf.id,
               label := sf.label,
               occurred_at := some d,
               platform := "Bandcamp",
               currency := rowGetD row "currency" "USD",
               product_type := rowGetD row "item type" "",
               quantity := parsed.2.2,
               gross_amount := parsed.2.1,
               net_amount := parsed.1,
               net_amount_base := parsed.1,
               base_ccy := "USD",
               row_hash := row_hash }

/-- Embedding of `process_distribution_row`: extract gross and net amounts
(an extraction exception skips the row), default a zero net to the gross,
and skip the record when both figures are zero. -/
def process_distribution_row (sf : SourceFileRec) (row : Row) (row_hash : String) :
    Option RevenueEvent :=
  match extract_decimal row grossCols with
  | none => none
  | some gross =>
    match extract_decimal row netCols with
    | none => none
    | some netRaw =>
      let net := if netRaw = 0 then gross else netRaw
      let qty := extract_integer row qtyCols
      if gross = 0 && net = 0 then none
      else
        some { source_file_id := sf.id,
               label := sf.label,
               occurred_at := sf.period_start,
               platform := "Distribution",
               currency := "EUR",
               product_type := "digital",
               quantity := qty,
               gross_amount := gross,
               net_amount := net,
               net_amount_base := net,
               base_ccy := "EUR",
               row_hash := row_hash }

/-- Append-only store of persisted revenue events. -/
structure EventStore where
  events : List RevenueEvent
deriving DecidableEq, Repr

/-- Django `RevenueEvent.objects.filter(row_hash=h).exists()`. -/
def row_hash_exists (st : EventStore) (h : String) : Bool :=
  st.events.any (fun e => e.row_hash = h)

/-- Datasource dispatch inside the `process_canonical_file` loop: bandcamp
and distribution rows go to their processors, any other datasource is
skipped (`continue`). -/
def dispatch_row (sf : SourceFileRec) (row : Row) (h : String) : Option RevenueEvent :=
  if sf.datasource = "bandcamp" then process_bandcamp_row sf row h
  else if sf.datasource = "distribution" then process_distribution_row sf row h
  else none

/-- One row of the `process_canonical_file` loop: compute the row hash, skip
the row when (without `--force`) an event with that hash already exists,
dispatch on the datasource, and append the produced event.  The unique
index on `row_hash` rejects a duplicate insert (the per-row handler eats
the error), so an insert is also guarded by the store. -/
def process_row_step (sha : String → String) (sf : SourceFileRec) (force : Bool)
    (acc : EventStore × Nat) (row : Row) : EventStore × Nat :=
  if !force && row_hash_exists acc.1 (compute_row_hash sha sf row) then acc
  else
    match dispatch_row sf row (compute_row_hash sha sf row) with
    | none => acc
    | some ev =>
      if row_hash_exists acc.1 ev.row_hash then acc
      else (⟨acc.1.events ++ [ev]⟩, acc.2 + 1)

/-- Embedding of `process_canonical_file`: fold the per-row step over the
file's rows, returning the grown store and the count of records written. -/
def process_canonical_file (sha : String → String) (sf : SourceFileRec)
    (rows : List Row) (force : Bool) (st : EventStore) : EventStore × Nat :=
  rows.foldl (process_row_step sha sf force) (st, 0)

/-! ## backend/finances/services/exchange_rate_service.py -/

/-- Outcome of the HTTP fetch against the rate API: a transport failure
(`requests.RequestException`), an unparseable body (`ValueError`/`KeyError`)
or a parsed `rates` table. -/
inductive FetchOutcome where
  | requestFailure
  | parseFailure
  | payload (rates : List (String × ℚ))
deriving DecidableEq, Repr

/-- Embedding of `_get_fallback_rate`: the documented static table, with
rate 1.0 for any currency outside it. -/
def _get_fallback_rate (from_currency : String) : ℚ :=
  if from_currency = "USD" then 5.5
  else if from_currency = "EUR" then 6
  else if from_currency = "GBP" then 7
  else 1

/-- Test that the fetch could not supply a BRL rate. -/
def fetch_unavailable : FetchOutcome → Bool
  | .requestFailure => true
  | .parseFailure => true
  | .payload rates => (List.lookup "BRL" rates).isNone

/-- Embedding of `get_rate_to_brl` over an explicit cache (keyed here by the
source currency; the code's key prefixes it into a cache-key string) and
fetch outcome.  The write-back into the cache is a side effect no claim
touches. -/
def get_rate_to_brl (from_currency : String) (cache : List (String × ℚ))
    (outcome : FetchOutcome) : ℚ :=
  if from_currency = "BRL" then 1
  else
    match List.lookup from_currency cache with
    | some r => r
    | none =>
      match outcome with
      | .requestFailure => _get_fallback_rate from_currency
      | .parseFailure => _get_fallback_rate from_currency
      | .payload rates =>
        match List.lookup "BRL" rates with
        | none => _get_fallback_rate from_currency
        | some r => r

/-- Embedding of `convert_to_brl`. -/
def convert_to_brl (amount : ℚ) (from_currency : String) (cache : List (String × ℚ))
    (outcome : FetchOutcome) : ℚ :=
  if from_currency = "BRL" then amount
  else amount * get_rate_to_brl from_currency cache outcome

/-! ## backend/finances/management/commands/finances_payout.py -/

/-- Stored `PayoutRun` row. -/
structure PayoutRunRec where
  id : Nat
  label : String
  period_year : Nat
  period_quarter : Nat
  base_currency : String
  status : String
deriving DecidableEq, Repr

/-- Stored `PayoutLine` row (the fields the command populates). -/
structure PayoutLineRec where
  payout_run_id : Nat
  artist : String
  amount_base : ℚ
  amount_original : ℚ
  original_currency : String
  fx_rate_used : ℚ
deriving DecidableEq, Repr

/-- Persisted payout state: runs, their lines, and the next primary key. -/
structure PayoutState where
  runs : List PayoutRunRec
  lines : List PayoutLineRec
  next_run_id : Nat
deriving DecidableEq, Repr

/-- Accumulated figures of one `calculate_payouts` group. -/
structure PayoutGroup where
  platform : String
  currency : String
  total_revenue : ℚ
  events_count : Nat
  artist_payout : ℚ
deriving DecidableEq, Repr

/-- Dictionary key `f"\x7bevent.platform.name\x7d_\x7bevent.currency\x7d"`. -/
def payout_key (e : RevenueEvent) : String :=
  e.platform ++ "_" ++ e.currency

/-- Add one event into the grouping dict, creating its entry on first
sight (insertion order preserved, as for a Python dict). -/
def add_event_to_groups (rate : ℚ) (m : List (String × PayoutGroup)) (e : RevenueEvent) :
    List (String × PayoutGroup) :=
  match m with
  | [] => [(payout_key e,
      { platform := e.platform, currency := e.currency,
        total_revenue := e.net_amount, events_count := 1,
        artist_payout := e.net_amount * rate })]
  | (k, g) :: rest =>
    if k = payout_key e then
      (k, { g with total_revenue := g.total_revenue + e.net_amount,
                   events_count := g.events_count + 1,
                   artist_payout := g.artist_payout + e.net_amount * rate }) :: rest
    else (k, g) :: add_event_to_groups rate rest e

/-- Embedding of `calculate_payouts`: group the period's events by platform
and currency, accumulating revenue, event count and the default-rate artist
share. -/
def calculate_payouts (events : List RevenueEvent) (default_rate : ℚ) :
    List (String × PayoutGroup) :=
  events.foldl (add_event_to_groups default_rate) []

/-- Lexicographic strict order on dates. -/
def dateLt (a b : PyDate) : Bool :=
  a.year < b.year || (a.year = b.year &&
    (a.month < b.month || (a.month = b.month && a.day < b.day)))

/-- Non-strict order on dates. -/
def dateLe (a b : PyDate) : Bool :=
  dateLt a b || a = b

/-- First day of the quarter. -/
def quarter_start (year quarter : Nat) : PyDate :=
  ⟨year, (quarter - 1) * 3 + 1, 1⟩

/-- First day after the quarter. -/
def quarter_end (year quarter : Nat) : PyDate :=
  if quarter = 4 then ⟨year + 1, 1, 1⟩ else ⟨year, (quarter - 1) * 3 + 4, 1⟩

/-- Django filter of `handle`: events of the label whose date lies inside
the quarter; events with no timestamp fail every SQL comparison. -/
def events_in_period (label : String) (year quarter : Nat)
    (events : List RevenueEvent) : List RevenueEvent :=
  events.filter (fun e =>
    e.label = label &&
    match e.occurred_at with
    | some d => dateLe (quarter_start year quarter) d && dateLt d (quarter_end year quarter)
    | none => false)

/-- Key equality of payout runs, matching the `unique_together` of
`(label, period_year, period_quarter)`. -/
def same_run_key (a : PayoutRunRec) (b : PayoutRunRec) : Bool :=
  a.label = b.label && a.period_year = b.period_year && a.period_quarter = b.period_quarter

/-- Pairwise distinctness of run keys. -/
def run_keys_unique : List PayoutRunRec → Bool
  | [] => true
  | r :: rest => rest.all (fun s => !same_run_key r s) && run_keys_unique rest

/-- Embedding of `finances_payout.handle` after argument parsing: look for
an existing run of the key; without `--preview` an existing run causes an
early return that changes nothing and computes nothing.  Otherwise the
period's events are grouped; in preview mode nothing is persisted, else a
run and one summary line per group (for the placeholder artist) are
created.  The returned list is the computed grouping (what the summary
displays). -/
def payout_handle (label : String) (year quarter : Nat) (preview : Bool)
    (default_rate : ℚ) (events : List RevenueEvent) (st : PayoutState) :
    PayoutState × List (String × PayoutGroup) :=
  let existing := st.runs.find? (fun r =>
    r.label = label && r.period_year = year && r.period_quarter = quarter)
  if existing.isSome && !preview then (st, [])
  else
    let calcs := calculate_payouts (events_in_period label year quarter events) default_rate
    if preview then (st, calcs)
    else
      let run : PayoutRunRec :=
        { id := st.next_run_id, label := label, period_year := year,
          period_quarter := quarter, base_currency := "EUR", status := "draft" }
      let new_lines := calcs.map (fun kg =>
        { payout_run_id := run.id,
          artist := "Various Artists",
          amount_base := kg.2.artist_payout,
          amount_original := kg.2.artist_payout,
          original_currency := kg.2.currency,
          fx_rate_used := 1 })
      ({ runs := st.runs ++ [run],
         lines := st.lines ++ new_lines,
         next_run_id := st.next_run_id + 1 }, calcs)

/-! ## Verified properties -/

/-- C5, counterexample.  The claim states that `"1.234,56"` canonicalizes to
`1234.56`; the rewrite only replaces commas by dots in plausibly numeric
cells, so the thousands dot survives and the cell becomes `"1.234.56"`. -/
theorem C5_counterexample :
    normalize_cell "1.234,56" = "1.234.56" ∧ normalize_cell "1.234,56" ≠ "1234.56" := by
  decide

/-- C5, amended.  In a plausibly numeric cell every comma becomes a dot and
pre-existing dots are left in place (`"1.234,56"` becomes `"1.234.56"`,
`"1234,56"` becomes `"1234.56"`); a cell whose stripped text contains any
character outside digits and `",.-"` passes through unchanged. -/
theorem C5_amended (cell : String) (c : Char) (hc : c ∈ (pyStrip cell).data)
    (hnum : (c.isDigit || c = ',' || c = '.' || c = '-') = false) :
    normalize_cell cell = cell ∧
    normalize_cell "1.234,56" = "1.234.56" ∧
    normalize_cell "1234,56" = "1234.56" := by
  refine ⟨?_, by decide, by decide⟩
  have hall : ((pyStrip cell).data.all
      fun ch => ch.isDigit || ch = ',' || ch = '.' || ch = '-') = false := by
    cases hall : ((pyStrip cell).data.all
        fun ch => ch.isDigit || ch = ',' || ch = '.' || ch = '-') with
    | false => rfl
    | true =>
      have := List.all_eq_true.mp hall c hc
      simp only [this] at hnum
      cases hnum
  have hlln : _looks_like_number cell = false := by
    unfold _looks_like_number
    split
    · rfl
    · simp only [hall, Bool.and_false]
  unfold normalize_cell
  simp [hlln]

/-- C5, witness for the amended theorem at the cell `"Rua X, 5"`. -/
theorem C5_amended_witness :
    normalize_cell "Rua X, 5" = "Rua X, 5" ∧
    normalize_cell "1.234,56" = "1.234.56" ∧
    normalize_cell "1234,56" = "1234.56" :=
  C5_amended "Rua X, 5" 'R' (by decide) (by decide)

/-- C7.  With no cached rate, whenever the fetch cannot supply a BRL rate
(transport failure, unparseable body, or a body without a BRL entry),
`get_rate_to_brl` returns the static fallback rate of the currency, and the
fallback table reads USD 5.50, EUR 6.00, GBP 7.00. -/
theorem C7_fx_fallback (c : String) (cache : List (String × ℚ)) (o : FetchOutcome)
    (hc : List.lookup c cache = none) (ho : fetch_unavailable o = true) :
    get_rate_to_brl c cache o = _get_fallback_rate c ∧
    _get_fallback_rate "USD" = 5.5 ∧
    _get_fallback_rate "EUR" = 6 ∧
    _get_fallback_rate "GBP" = 7 := by
  refine ⟨?_, by with_unfolding_all decide, by with_unfolding_all decide,
    by with_unfolding_all decide⟩
  unfold get_rate_to_brl
  split
  · next hbrl => subst hbrl; with_unfolding_all decide
  · rw [hc]
    cases o with
    | requestFailure => rfl
    | parseFailure => rfl
    | payload rates =>
      have hnone : List.lookup "BRL" rates = none := by
        simpa [fetch_unavailable, Option.isNone_iff_eq_none] using ho
      simp [hnone]

/-- C7, witness: a USD fetch that fails over the network with a cold cache. -/
theorem C7_fx_fallback_witness :
    get_rate_to_brl "USD" [] FetchOutcome.requestFailure = _get_fallback_rate "USD" ∧
    _get_fallback_rate "USD" = 5.5 ∧
    _get_fallback_rate "EUR" = 6 ∧
    _get_fallback_rate "GBP" = 7 :=
  C7_fx_fallback "USD" [] FetchOutcome.requestFailure rfl rfl

/-- C10.  Conversion to BRL is the identity on BRL itself regardless of
cache or fetch outcome, and, when the rate service is unavailable with a
cold cache, also on every currency outside the static fallback table, whose
fallback rate is 1. -/
theorem C10_identity (amount : ℚ) (c : String) (cache : List (String × ℚ)) (o : FetchOutcome)
    (hc : List.lookup c cache = none) (ho : fetch_unavailable o = true)
    (h1 : c ≠ "USD") (h2 : c ≠ "EUR") (h3 : c ≠ "GBP") :
    convert_to_brl amount "BRL" cache o = amount ∧
    convert_to_brl amount c cache o = amount := by
  constructor
  · simp [convert_to_brl]
  · unfold convert_to_brl
    split
    · rfl
    · next hbrl =>
      have hfb : _get_fallback_rate c = 1 := by
        unfold _get_fallback_rate
        rw [if_neg h1, if_neg h2, if_neg h3]
      have hrate : get_rate_to_brl c cache o = 1 := by
        unfold get_rate_to_brl
        rw [if_neg hbrl, hc]
        cases o with
        | requestFailure => exact hfb
        | parseFailure => exact hfb
        | payload rates =>
          have hnone : List.lookup "BRL" rates = none := by
            simpa [fetch_unavailable, Option.isNone_iff_eq_none] using ho
          simp [hnone, hfb]
      rw [hrate, mul_one]

/-- C10, witness: converting 7 JPY with a failing rate service. -/
theorem C10_identity_witness :
    convert_to_brl 7 "BRL" [] FetchOutcome.requestFailure = 7 ∧
    convert_to_brl 7 "JPY" [] FetchOutcome.requestFailure = 7 :=
  C10_identity 7 "JPY" [] FetchOutcome.requestFailure rfl rfl
    (by decide) (by decide) (by decide)

/-- C3, counterexample.  A distribution row that the classifier accepted but
whose gross and net amounts both parse to zero is dropped by
`process_distribution_row` itself (it returns no event), contradicting the
claim that the normalizer persists zero-amount transactions. -/
theorem C3_counterexample :
    process_distribution_row ⟨1, "distribution", "TT", some ⟨2022, 10, 1⟩⟩
      [("Artist", "A"), ("Title", "T"), ("Revenue-EUR", "0")] "h3" = none := by
  with_unfolding_all decide

/-- C3, amended.  `process_distribution_row` persists an accepted row
exactly unless both the extracted gross and net amounts are zero: when both
extractions succeed and are zero the row is skipped by the normalizer (in
addition to any classifier filtering); when either figure is non-zero an
event is persisted. -/
theorem C3_amended (sf : SourceFileRec) (row : Row) (h : String) :
    (extract_decimal row grossCols = some 0 → extract_decimal row netCols = some 0 →
      process_distribution_row sf row h = none) ∧
    (∀ g n, extract_decimal row grossCols = some g → extract_decimal row netCols = some n →
      ¬(g = 0 ∧ n = 0) → (process_distribution_row sf row h).isSome = true) := by
  constructor
  · intro hg hn
    unfold process_distribution_row
    rw [hg, hn]
    norm_num
  · intro g n hg hn hnz
    unfold process_distribution_row
    rw [hg, hn]
    by_cases hn0 : n = 0
    · subst hn0
      have hg0 : ¬g = 0 := fun h0 => hnz ⟨h0, rfl⟩
      simp [hg0]
    · simp [hn0]

/-- C3, witness for the amended theorem: a zero-revenue row is skipped and a
five-euro row is persisted. -/
theorem C3_amended_witness :
    process_distribution_row ⟨1, "distribution", "TT", some ⟨2022, 10, 1⟩⟩
      [("Revenue-EUR", "0")] "h3w" = none ∧
    (process_distribution_row ⟨1, "distribution", "TT", some ⟨2022, 10, 1⟩⟩
      [("Revenue-EUR", "5")] "h3w" |>.isSome) = true := by
  constructor
  · exact (C3_amended ⟨1, "distribution", "TT", some ⟨2022, 10, 1⟩⟩
      [("Revenue-EUR", "0")] "h3w").1 (by with_unfolding_all decide)
      (by with_unfolding_all decide)
  · exact (C3_amended ⟨1, "distribution", "TT", some ⟨2022, 10, 1⟩⟩
      [("Revenue-EUR", "5")] "h3w").2 5 0 (by with_unfolding_all decide)
      (by with_unfolding_all decide) (by norm_num)

/-- C9, counterexample.  The claim says an unparseable net-amount candidate
yields a parsed net of zero which is then silently replaced by the gross
amount.  In the code an unparseable, non-empty candidate raises
`decimal.InvalidOperation` (not caught by the `ValueError`/`TypeError`
handlers), so the row is dropped entirely and no event is written. -/
theorem C9_counterexample :
    extract_decimal [("Revenue-EUR", "5"), ("Royalty", "abc")] netCols = none ∧
    process_distribution_row ⟨1, "distribution", "TT", some ⟨2022, 10, 1⟩⟩
      [("Revenue-EUR", "5"), ("Royalty", "abc")] "h9" = none := by
  decide

/-- C9, amended.  When the net-amount candidates are absent or empty (or
parse to literal zero) — so that net extraction succeeds with value zero —
while the gross amount is non-zero, the persisted event's `net_amount` and
`net_amount_base` are silently set to the gross amount.  An unparseable
non-empty net candidate instead aborts the row. -/
theorem C9_amended (sf : SourceFileRec) (row : Row) (h : String) (g : ℚ)
    (hn : extract_decimal row netCols = some 0)
    (hg : extract_decimal row grossCols = some g) (hgz : g ≠ 0) :
    ∃ ev, process_distribution_row sf row h = some ev ∧
      ev.net_amount = g ∧ ev.net_amount_base = g ∧ ev.gross_amount = g := by
  unfold process_distribution_row
  rw [hg, hn]
  simp [hgz]

/-- C9, witness: a row with a five-euro gross and no net column. -/
theorem C9_amended_witness :
    ∃ ev, process_distribution_row ⟨1, "distribution", "TT", some ⟨2022, 10, 1⟩⟩
      [("Revenue-EUR", "5")] "h9w" = some ev ∧
      ev.net_amount = 5 ∧ ev.net_amount_base = 5 ∧ ev.gross_amount = 5 :=
  C9_amended ⟨1, "distribution", "TT", some ⟨2022, 10, 1⟩⟩
    [("Revenue-EUR", "5")] "h9w" 5 (by with_unfolding_all decide)
    (by with_unfolding_all decide) (by norm_num)

/-! ### Deduplication infrastructure shared by the idempotence results -/

/-- Dispatched processors stamp the produced event with exactly the row hash
they were handed: the distribution case. -/
theorem process_distribution_row_mk_hash (sf : SourceFileRec) (row : Row) (h : String)
    (ev : RevenueEvent) (hd : process_distribution_row sf row h = some ev) :
    ev.row_hash = h := by
  unfold process_distribution_row at hd
  cases hg : extract_decimal row grossCols with
  | none => rw [hg] at hd; cases hd
  | some gross =>
    rw [hg] at hd
    cases hn : extract_decimal row netCols with
    | none => simp only at hd; rw [hn] at hd; cases hd
    | some netRaw =>
      simp only at hd
      rw [hn] at hd
      simp only at hd
      have aux : ∀ (b : Bool) (x : RevenueEvent),
          (if b = true then none else some x) = some ev → x.row_hash = ev.row_hash := by
        intro b x hx
        cases b with
        | true => simp at hx
        | false => simp at hx; rw [hx]
      exact (aux _ _ hd).symm

/-- Dispatched processors stamp the produced event with exactly the row hash
they were handed: the bandcamp case. -/
theorem process_bandcamp_row_mk_hash (sf : SourceFileRec) (row : Row) (h : String)
    (ev : RevenueEvent) (hd : process_bandcamp_row sf row h = some ev) :
    ev.row_hash = h := by
  unfold process_bandcamp_row at hd
  cases hdate : parse_bandcamp_date (rowGetD row "date" "") with
  | none => rw [hdate] at hd; cases hd
  | some d =>
    rw [hdate] at hd
    simp only at hd
    cases hnet : pyDecimal
        (pyOr (pyReplace (pyReplace (rowGetD row "amount you received" "0") "$" "") "," "") "0") with
    | none => rw [hnet] at hd; cases hd
    | some n =>
      rw [hnet] at hd
      simp only at hd
      cases hgross : pyDecimal
          (pyOr (pyReplace (pyReplace (rowGetD row "item total" "0") "$" "") "," "") "0") with
      | none => rw [hgross] at hd; cases hd
      | some g =>
        rw [hgross] at hd
        simp only at hd
        cases hd; rfl

/-- Any event produced by the datasource dispatch carries the handed hash. -/
theorem dispatch_row_mk_hash (sf : SourceFileRec) (row : Row) (h : String)
    (ev : RevenueEvent) (hd : dispatch_row sf row h = some ev) :
    ev.row_hash = h := by
  unfold dispatch_row at hd
  split at hd
  · exact process_bandcamp_row_mk_hash sf row h ev hd
  · split at hd
    · exact process_distribution_row_mk_hash sf row h ev hd
    · cases hd

/-- One loop step only appends to the event store. -/
theorem step_events_append (sha : String → String) (sf : SourceFileRec) (force : Bool)
    (acc : EventStore × Nat) (row : Row) :
    ∃ t, (process_row_step sha sf force acc row).1.events = acc.1.events ++ t := by
  unfold process_row_step
  split
  · exact ⟨[], by simp⟩
  · split
    · exact ⟨[], by simp⟩
    · split
      · exact ⟨[], by simp⟩
      · exact ⟨_, rfl⟩

/-- Boolean form of a failed store lookup. -/
theorem row_hash_exists_eq_false (st : EventStore) (h : String)
    (hnex : ¬row_hash_exists st h = true) : row_hash_exists st h = false := by
  cases hx : row_hash_exists st h
  · rfl
  · exact absurd hx hnex

/-- The whole loop only appends to the event store. -/
theorem foldl_events_append (sha : String → String) (sf : SourceFileRec) (force : Bool)
    (rows : List Row) :
    ∀ acc, ∃ t,
      (List.foldl (process_row_step sha sf force) acc rows).1.events = acc.1.events ++ t := by
  induction rows with
  | nil => intro acc; exact ⟨[], by simp⟩
  | cons r rs ih =>
    intro acc
    obtain ⟨t2, h2⟩ := ih (process_row_step sha sf force acc r)
    obtain ⟨t1, h1⟩ := step_events_append sha sf force acc r
    exact ⟨t1 ++ t2, by rw [List.foldl_cons, h2, h1, List.append_assoc]⟩

/-- A hash present in the store stays present across the loop. -/
theorem hash_exists_mono (sha : String → String) (sf : SourceFileRec) (force : Bool)
    (rows : List Row) (acc : EventStore × Nat) (h : String)
    (hex : row_hash_exists acc.1 h = true) :
    row_hash_exists (List.foldl (process_row_step sha sf force) acc rows).1 h = true := by
  obtain ⟨t, ht⟩ := foldl_events_append sha sf force rows acc
  unfold row_hash_exists at hex ⊢
  rw [ht, List.any_append, hex, Bool.true_or]

/-- Settledness of a row against a store: its hash is already present, or
its datasource dispatch yields no event. -/
def row_settled (sha : String → String) (sf : SourceFileRec) (st : EventStore) (row : Row) :
    Prop :=
  row_hash_exists st (compute_row_hash sha sf row) = true ∨
  dispatch_row sf row (compute_row_hash sha sf row) = none

/-- Without `--force`, a settled row is skipped: the step leaves store and
count untouched. -/
theorem step_settled_eq (sha : String → String) (sf : SourceFileRec)
    (acc : EventStore × Nat) (row : Row)
    (hs : row_settled sha sf acc.1 row) :
    process_row_step sha sf false acc row = acc := by
  unfold process_row_step
  simp only [Bool.not_false, Bool.true_and]
  rcases hs with hex | hnone
  · rw [if_pos hex]
  · rw [hnone]
    split
    · rfl
    · rfl

/-- When an unsettled row produces an event, the step records its hash. -/
theorem step_records_hash (sha : String → String) (sf : SourceFileRec)
    (acc : EventStore × Nat) (row : Row)
    (hnex : ¬row_hash_exists acc.1 (compute_row_hash sha sf row) = true)
    (ev : RevenueEvent)
    (hd : dispatch_row sf row (compute_row_hash sha sf row) = some ev) :
    row_hash_exists (process_row_step sha sf false acc row).1
      (compute_row_hash sha sf row) = true := by
  have hevh : ev.row_hash = compute_row_hash sha sf row :=
    dispatch_row_mk_hash sf row _ ev hd
  have hnex' := row_hash_exists_eq_false acc.1 _ hnex
  unfold process_row_step
  simp only [Bool.not_false, Bool.true_and, hnex', Bool.false_eq_true, if_false, hd]
  rw [hevh, hnex']
  simp only [Bool.false_eq_true, if_false]
  unfold row_hash_exists
  simp [hevh]

/-- After a full loop pass, every row of the file is settled against the
resulting store. -/
theorem run_settles (sha : String → String) (sf : SourceFileRec) (rows : List Row) :
    ∀ acc, ∀ row ∈ rows,
      row_settled sha sf (List.foldl (process_row_step sha sf false) acc rows).1 row := by
  induction rows with
  | nil => intro acc row hrow; cases hrow
  | cons r rs ih =>
    intro acc row hrow
    rw [List.foldl_cons]
    rcases List.mem_cons.mp hrow with hrow | hrow
    · subst hrow
      by_cases hex : row_hash_exists acc.1 (compute_row_hash sha sf row) = true
      · left
        apply hash_exists_mono
        obtain ⟨t, ht⟩ := step_events_append sha sf false acc row
        unfold row_hash_exists at hex ⊢
        rw [ht, List.any_append, hex, Bool.true_or]
      · cases hd : dispatch_row sf row (compute_row_hash sha sf row) with
        | none => exact Or.inr hd
        | some ev =>
          left
          exact hash_exists_mono sha sf false rs _ _
            (step_records_hash sha sf acc row hex ev hd)
    · exact ih (process_row_step sha sf false acc r) row hrow

/-- A loop pass over rows all of which are settled changes nothing. -/
theorem run_of_settled (sha : String → String) (sf : SourceFileRec) (rows : List Row) :
    ∀ acc, (∀ row ∈ rows, row_settled sha sf acc.1 row) →
      List.foldl (process_row_step sha sf false) acc rows = acc := by
  induction rows with
  | nil => intro acc _; rfl
  | cons r rs ih =>
    intro acc hall
    rw [List.foldl_cons, step_settled_eq sha sf acc r (hall r (List.mem_cons_self r rs))]
    exact ih acc (fun row hrow => hall row (List.mem_cons_of_mem r hrow))

/-- Re-processing one row immediately is a no-op. -/
theorem step_idem (sha : String → String) (sf : SourceFileRec)
    (acc : EventStore × Nat) (row : Row) :
    process_row_step sha sf false (process_row_step sha sf false acc row) row =
    process_row_step sha sf false acc row := by
  apply step_settled_eq
  by_cases hex : row_hash_exists acc.1 (compute_row_hash sha sf row) = true
  · rw [step_settled_eq sha sf acc row (Or.inl hex)]
    exact Or.inl hex
  · cases hd : dispatch_row sf row (compute_row_hash sha sf row) with
    | none => exact Or.inr hd
    | some ev => exact Or.inl (step_records_hash sha sf acc row hex ev hd)

/-- C1.  Without `--force`, re-running `process_canonical_file` over the
unchanged file on the store the first run produced writes zero new events
and returns that store unchanged; moreover any single row whose computed
hash already exists in the store is skipped outright by the per-row step. -/
theorem C1_idempotent (sha : String → String) (sf : SourceFileRec)
    (rows : List Row) (st : EventStore) :
    process_canonical_file sha sf rows false
        ((process_canonical_file sha sf rows false st).1) =
      ((process_canonical_file sha sf rows false st).1, 0) ∧
    ∀ (acc : EventStore × Nat) (row : Row),
      row_hash_exists acc.1 (compute_row_hash sha sf row) = true →
      process_row_step sha sf false acc row = acc := by
  constructor
  · unfold process_canonical_file
    exact run_of_settled sha sf rows _ (fun row hrow => run_settles sha sf rows (st, 0) row hrow)
  · exact fun acc row hex => step_settled_eq sha sf acc row (Or.inl hex)

/-- C2, counterexample.  A file holding two rows with identical business
fields: both rows hash via `f"\x7bid\x7d:\x7brow\x7d"` with no row ordinal,
so the hashes collide and only one Revenue Event is written (the claim
expects two).  The digest is instantiated with an injective function, the
case most favourable to the claim. -/
theorem C2_counterexample :
    ((process_canonical_file (fun s => s) ⟨1, "distribution", "TT", some ⟨2022, 10, 1⟩⟩
        [[("Artist", "A"), ("Title", "T"), ("Revenue-EUR", "1.00")],
         [("Artist", "A"), ("Title", "T"), ("Revenue-EUR", "1.00")]] false ⟨[]⟩).1.events.length
      = 1) ∧
    ((process_canonical_file (fun s => s) ⟨1, "distribution", "TT", some ⟨2022, 10, 1⟩⟩
        [[("Artist", "A"), ("Title", "T"), ("Revenue-EUR", "1.00")],
         [("Artist", "A"), ("Title", "T"), ("Revenue-EUR", "1.00")]] false ⟨[]⟩).2 = 1) := by
  with_unfolding_all decide

/-- C2, amended.  The identity hash is a deterministic function of exactly
two inputs — the source-file id and the full row contents (there is no
within-file row ordinal) — so any two source files with the same id give
every row the same hash, and a file carrying the same row twice produces
exactly what processing the row once produces: the duplicate occurrence is
skipped, not persisted separately. -/
theorem C2_amended (sha : String → String) (sf sf2 : SourceFileRec) (row : Row)
    (st : EventStore) (hid : sf.id = sf2.id) :
    compute_row_hash sha sf row = compute_row_hash sha sf2 row ∧
    process_canonical_file sha sf [row, row] false st =
      process_canonical_file sha sf [row] false st := by
  constructor
  · unfold compute_row_hash
    rw [hid]
  · unfold process_canonical_file
    simp only [List.foldl_cons, List.foldl_nil]
    exact step_idem sha sf (st, 0) row

/-- C2, witness for the amended theorem at a concrete distribution file. -/
theorem C2_amended_witness :
    compute_row_hash (fun s => s) ⟨1, "distribution", "TT", some ⟨2022, 10, 1⟩⟩
        [("Artist", "A")] =
      compute_row_hash (fun s => s) ⟨1, "bandcamp", "XX", none⟩ [("Artist", "A")] ∧
    process_canonical_file (fun s => s) ⟨1, "distribution", "TT", some ⟨2022, 10, 1⟩⟩
        [[("Artist", "A")], [("Artist", "A")]] false ⟨[]⟩ =
      process_canonical_file (fun s => s) ⟨1, "distribution", "TT", some ⟨2022, 10, 1⟩⟩
        [[("Artist", "A")]] false ⟨[]⟩ :=
  C2_amended (fun s => s) ⟨1, "distribution", "TT", some ⟨2022, 10, 1⟩⟩
    ⟨1, "bandcamp", "XX", none⟩ [("Artist", "A")] ⟨[]⟩ rfl

/-! ### Payout results -/

/-- Boolean negation of a predicate holding on a list member, in the form
`find?` failures provide it. -/
theorem pred_eq_false_of_find?_none {α : Type} (p : α → Bool) (l : List α)
    (hfind : l.find? p = none) (x : α) (hx : x ∈ l) : p x = false := by
  have hnp := List.find?_eq_none.mp hfind x hx
  cases hp : p x
  · rfl
  · exact absurd hp hnp

/-- Appending a run whose key clashes with no stored run preserves key
uniqueness. -/
theorem run_keys_unique_append (l : List PayoutRunRec) (new : PayoutRunRec)
    (hu : run_keys_unique l = true)
    (hfresh : ∀ x ∈ l, same_run_key x new = false) :
    run_keys_unique (l ++ [new]) = true := by
  induction l with
  | nil => simp [run_keys_unique]
  | cons r t ih =>
    unfold run_keys_unique at hu
    rw [Bool.and_eq_true] at hu
    show (((t ++ [new]).all fun s => !same_run_key r s) && run_keys_unique (t ++ [new])) = true
    rw [List.all_append, Bool.and_eq_true, Bool.and_eq_true]
    refine ⟨⟨hu.1, ?_⟩, ih hu.2 (fun x hx => hfresh x (List.mem_cons_of_mem r hx))⟩
    simp [hfresh r (List.mem_cons_self r t)]

/-- C4.  Requesting a non-preview payout for a (label, year, quarter) key
that already has a run is rejected: the state comes back bit-for-bit
unchanged (no second run, no mutation of the stored one, no lines) and
nothing is computed; and the per-key uniqueness of payout runs is preserved
by every invocation, preview or not. -/
theorem C4_no_duplicate_run (label : String) (year quarter : Nat) (rate : ℚ)
    (events : List RevenueEvent) (st : PayoutState) (r : PayoutRunRec)
    (hex : st.runs.find? (fun r0 =>
      r0.label = label && r0.period_year = year && r0.period_quarter = quarter) = some r) :
    payout_handle label year quarter false rate events st = (st, []) ∧
    ∀ preview, run_keys_unique st.runs = true →
      run_keys_unique (payout_handle label year quarter preview rate events st).1.runs = true := by
  constructor
  · unfold payout_handle
    rw [hex]
    simp
  · intro preview hu
    unfold payout_handle
    cases hfind : st.runs.find? (fun r0 =>
        r0.label = label && r0.period_year = year && r0.period_quarter = quarter) with
    | some r2 =>
      cases preview with
      | true => simpa using hu
      | false => simpa using hu
    | none =>
      cases preview with
      | true => simpa using hu
      | false =>
        simp only [Option.isSome_none, Bool.false_and, Bool.if_false_left,
          Bool.not_false, Bool.and_true]
        simp only [Bool.not_true, Bool.and_false, Bool.false_eq_true, if_false, if_neg]
        refine run_keys_unique_append st.runs _ hu (fun x hx => ?_)
        exact pred_eq_false_of_find?_none _ st.runs hfind x hx

/-- C4, witness: a state already holding the 2024-Q4 run of label TT. -/
theorem C4_no_duplicate_run_witness :
    payout_handle "TT" 2024 4 false (1 / 2) []
        ⟨[⟨7, "TT", 2024, 4, "EUR", "draft"⟩], [], 8⟩ =
      (⟨[⟨7, "TT", 2024, 4, "EUR", "draft"⟩], [], 8⟩, []) ∧
    ∀ preview, run_keys_unique [⟨7, "TT", 2024, 4, "EUR", "draft"⟩] = true →
      run_keys_unique (payout_handle "TT" 2024 4 preview (1 / 2) []
        ⟨[⟨7, "TT", 2024, 4, "EUR", "draft"⟩], [], 8⟩).1.runs = true :=
  C4_no_duplicate_run "TT" 2024 4 (1 / 2) []
    ⟨[⟨7, "TT", 2024, 4, "EUR", "draft"⟩], [], 8⟩
    ⟨7, "TT", 2024, 4, "EUR", "draft"⟩ (by decide)

/-- C6.  A preview invocation persists nothing — the payout state (runs and
lines alike) is returned exactly as it was — while the displayed figures
are the same per-(platform, currency) grouping and artist-share computation
`calculate_payouts` that a committed run on the same fresh key persists. -/
theorem C6_preview_pure (label : String) (year quarter : Nat) (rate : ℚ)
    (events : List RevenueEvent) (st : PayoutState)
    (hnone : st.runs.find? (fun r =>
      r.label = label && r.period_year = year && r.period_quarter = quarter) = none) :
    (payout_handle label year quarter true rate events st).1 = st ∧
    (payout_handle label year quarter true rate events st).2 =
      calculate_payouts (events_in_period label year quarter events) rate ∧
    (payout_handle label year quarter false rate events st).2 =
      (payout_handle label year quarter true rate events st).2 := by
  refine ⟨?_, ?_, ?_⟩
  · unfold payout_handle
    simp
  · unfold payout_handle
    simp
  · unfold payout_handle
    rw [hnone]
    simp

/-- C6, witness: previewing 2024-Q4 of label TT on an empty state. -/
theorem C6_preview_pure_witness :
    (payout_handle "TT" 2024 4 true (1 / 2) [] ⟨[], [], 1⟩).1 = ⟨[], [], 1⟩ ∧
    (payout_handle "TT" 2024 4 true (1 / 2) [] ⟨[], [], 1⟩).2 =
      calculate_payouts (events_in_period "TT" 2024 4 []) (1 / 2) ∧
    (payout_handle "TT" 2024 4 false (1 / 2) [] ⟨[], [], 1⟩).2 =
      (payout_handle "TT" 2024 4 true (1 / 2) [] ⟨[], [], 1⟩).2 :=
  C6_preview_pure "TT" 2024 4 (1 / 2) [] ⟨[], [], 1⟩ rfl

/-! ### Period inference and skip behaviour of the distribution ingester -/

/-- Members of a group after inserting one file: they were already grouped
under the same key, or they are the inserted file under its key. -/
theorem add_to_groups_mem (gs : List ((String × String × String) × List SrcFile))
    (k : String × String × String) (f : SrcFile)
    (kfs : (String × String × String) × List SrcFile)
    (hmem : kfs ∈ add_to_groups gs k f) (g : SrcFile) (hg : g ∈ kfs.2) :
    (∃ kfs0, kfs0 ∈ gs ∧ kfs0.1 = kfs.1 ∧ g ∈ kfs0.2) ∨ (g = f ∧ kfs.1 = k) := by
  induction gs with
  | nil =>
    right
    rcases List.mem_singleton.mp hmem with rfl
    exact ⟨List.mem_singleton.mp hg, rfl⟩
  | cons p rest ih =>
    obtain ⟨k0, fs⟩ := p
    unfold add_to_groups at hmem
    by_cases hk : k0 = k
    · rw [if_pos hk] at hmem
      rcases List.mem_cons.mp hmem with rfl | hmem2
      · rcases List.mem_append.mp hg with hgl | hgr
        · exact Or.inl ⟨(k0, fs), List.mem_cons_self _ _, rfl, hgl⟩
        · exact Or.inr ⟨List.mem_singleton.mp hgr, hk⟩
      · exact Or.inl ⟨kfs, List.mem_cons_of_mem _ hmem2, rfl, hg⟩
    · rw [if_neg hk] at hmem
      rcases List.mem_cons.mp hmem with rfl | hmem2
      · exact Or.inl ⟨(k0, fs), List.mem_cons_self _ _, rfl, hg⟩
      · rcases ih hmem2 with ⟨kfs0, h0mem, h0key, h0g⟩ | hright
        · exact Or.inl ⟨kfs0, List.mem_cons_of_mem _ h0mem, h0key, h0g⟩
        · exact Or.inr hright

/-- Generalized grouping invariant along the fold of `build_groups`. -/
theorem build_groups_go_mem (files : List SrcFile) :
    ∀ (gs0 : List ((String × String × String) × List SrcFile))
      (kfs : (String × String × String) × List SrcFile),
      kfs ∈ List.foldl (fun gs f =>
        match group_key f with
        | none => gs
        | some k => add_to_groups gs k f) gs0 files →
      ∀ g ∈ kfs.2,
        (∃ kfs0, kfs0 ∈ gs0 ∧ kfs0.1 = kfs.1 ∧ g ∈ kfs0.2) ∨
        (g ∈ files ∧ group_key g = some kfs.1) := by
  induction files with
  | nil =>
    intro gs0 kfs hmem g hg
    exact Or.inl ⟨kfs, hmem, rfl, hg⟩
  | cons fl rest ih =>
    intro gs0 kfs hmem g hg
    rw [List.foldl_cons] at hmem
    cases hkey : group_key fl with
    | none =>
      rw [hkey] at hmem
      rcases ih gs0 kfs hmem g hg with hleft | ⟨hgrest, hgk⟩
      · exact Or.inl hleft
      · exact Or.inr ⟨List.mem_cons_of_mem fl hgrest, hgk⟩
    | some k =>
      rw [hkey] at hmem
      rcases ih (add_to_groups gs0 k fl) kfs hmem g hg with
        ⟨kfs0, h0mem, h0key, h0g⟩ | ⟨hgrest, hgk⟩
      · rcases add_to_groups_mem gs0 k fl kfs0 h0mem g h0g with
          ⟨kfs1, h1mem, h1key, h1g⟩ | ⟨hgf, hk0⟩
        · exact Or.inl ⟨kfs1, h1mem, h1key.trans h0key, h1g⟩
        · refine Or.inr ⟨?_, ?_⟩
          · rw [hgf]; exact List.mem_cons_self fl rest
          · rw [hgf, hkey, ← h0key, hk0]
      · exact Or.inr ⟨List.mem_cons_of_mem fl hgrest, hgk⟩

/-- Every member of every built group is an input file whose grouping key is
that group's key. -/
theorem build_groups_mem (files : List SrcFile)
    (kfs : (String × String × String) × List SrcFile)
    (hmem : kfs ∈ build_groups files) (g : SrcFile) (hg : g ∈ kfs.2) :
    g ∈ files ∧ group_key g = some kfs.1 := by
  unfold build_groups at hmem
  rcases build_groups_go_mem files [] kfs hmem g hg with ⟨kfs0, h0, _, _⟩ | hr
  · cases h0
  · exact hr

/-- The best-scored candidate is one of the candidates. -/
theorem choose_best_mem (p : SrcFile) (rest : List SrcFile) :
    choose_best p rest = p ∨ choose_best p rest ∈ rest := by
  unfold choose_best
  induction rest generalizing p with
  | nil => exact Or.inl rfl
  | cons q t ih =>
    rw [List.foldl_cons]
    rcases ih (if score_lt (score p) (score q) then q else p) with h | h
    · by_cases hc : score_lt (score p) (score q) = true
      · right
        rw [h, if_pos hc]
        exact List.mem_cons_self q t
      · left
        rw [h, if_neg hc]
    · exact Or.inr (List.mem_cons_of_mem q h)

/-- A file that received a grouping key has an inferable reporting period. -/
theorem group_key_period (f : SrcFile) (k : String × String × String)
    (hk : group_key f = some k) : _infer_period_from_name f.path ≠ none := by
  unfold group_key at hk
  split at hk
  · cases hk
  · cases hst : stype_of f with
    | none => rw [hst] at hk; cases hk
    | some st =>
      rw [hst] at hk
      cases hinf : _infer_period_from_name f.path with
      | none => simp only at hk; rw [hinf] at hk; cases hk
      | some yq =>
        intro hc
        exact Option.noConfusion hc

/-- C8.  The period patterns year-then-quarter (`2022-Q4`, `2022_Q4`,
`2022Q4`) and quarter-then-year (`Q4 2022`, `Q4-2022`) are accepted and
return the same (year, quarter) — checked for every year 2000–2099 and
quarter 1–4 by `all_periods_ok` — and every metadata record the
distribution ingester produces stems from an input file whose path has an
inferable period, so a file matching neither pattern yields no canonical
file and no metadata (the batch never aborts: the ingester is total). -/
theorem C8_period_inference (files : List SrcFile) (m : SourceFileMeta)
    (hm : m ∈ ingest_distribution files) :
    (_infer_period_from_name "2022-Q4" = some ("2022", "Q4") ∧
     _infer_period_from_name "2022_Q4" = some ("2022", "Q4") ∧
     _infer_period_from_name "2022Q4" = some ("2022", "Q4") ∧
     _infer_period_from_name "Q4 2022" = some ("2022", "Q4") ∧
     _infer_period_from_name "Q4-2022" = some ("2022", "Q4") ∧
     all_periods_ok = true) ∧
    ∃ f, f ∈ files ∧ m.path = f.path ∧ _infer_period_from_name f.path ≠ none := by
  refine ⟨⟨by decide, by decide, by decide, by decide, by decide, by decide⟩, ?_⟩
  unfold ingest_distribution at hm
  rcases List.mem_filterMap.mp hm with ⟨kg, hkg, hF⟩
  cases h2 : kg.2 with
  | nil => rw [h2] at hF; cases hF
  | cons p rest =>
    rw [h2] at hF
    simp only at hF
    have hchosen : choose_best p rest ∈ kg.2 := by
      rw [h2]
      rcases choose_best_mem p rest with h | h
      · rw [h]; exact List.mem_cons_self p rest
      · exact List.mem_cons_of_mem p h
    obtain ⟨hmemf, hkey⟩ := build_groups_mem files kg hkg (choose_best p rest) hchosen
    cases hF
    exact ⟨choose_best p rest, hmemf, rfl, group_key_period _ _ hkey⟩

/-- C8, witness: one royalty statement named with the year-first pattern. -/
theorem C8_period_inference_witness :
    (_infer_period_from_name "2022-Q4" = some ("2022", "Q4") ∧
     _infer_period_from_name "2022_Q4" = some ("2022", "Q4") ∧
     _infer_period_from_name "2022Q4" = some ("2022", "Q4") ∧
     _infer_period_from_name "Q4 2022" = some ("2022", "Q4") ∧
     _infer_period_from_name "Q4-2022" = some ("2022", "Q4") ∧
     all_periods_ok = true) ∧
    ∃ f, f ∈ [(⟨"dist/2022/tt_RS_2022-Q4.csv", "tt_RS_2022-Q4.csv", 5000⟩ : SrcFile)] ∧
      (⟨"dist/2022/tt_RS_2022-Q4.csv", 5000, "distribution", "royalty", "2022-Q4", none⟩ :
        SourceFileMeta).path = f.path ∧
      _infer_period_from_name f.path ≠ none :=
  C8_period_inference [⟨"dist/2022/tt_RS_2022-Q4.csv", "tt_RS_2022-Q4.csv", 5000⟩]
    ⟨"dist/2022/tt_RS_2022-Q4.csv", 5000, "distribution", "royalty", "2022-Q4", none⟩
    (by decide)

end RLM
